import Mathlib

/-!
# vk_engine.h : DeletionQueue and Camera

A shallow embedding of the two pieces of `src/vk_engine.h` that carry behaviour
(`struct DeletionQueue`, `class Camera`) together with the properties proved about them.

## DeletionQueue

A stored `std::function<void()>` is represented by a value of an arbitrary type `α`
(its identity) and the effect of calling it by a function
`call : α → σ → σ × Bool` on a world `σ` that does not contain the queue itself.
The `Bool` is the outcome of the release (`true` = succeeded); the callable has
return type `void`, so the expression statement `(*it)();` has no access to it.
A ghost log records every evaluation of `(*it)()` with its outcome.

`flushLoop` and `Machine.flush` describe calls that return. `flushLoopExn` and
`Machine.flushExn` describe the same code when a call may also leave by a C++ exception
(`Outcome.threw`): `flush` has no `try` block, so the exception leaves the loop and
`deletors.clear()` is not reached. On calls that return the two descriptions agree
(`flushExn_returning`).
-/

namespace VkEngine

/-- The struct `DeletionQueue`: its only member is the deque `deletors`, front first. -/
structure DeletionQueue (α : Type) where
  deletors : List α
deriving DecidableEq, Repr

/-- A queue together with the world its callables act on and the log of calls made. -/
structure Machine (α σ : Type) where
  queue : DeletionQueue α
  world : σ
  trace : List (α × Bool)

/-- The callables invoked so far, oldest first. -/
def Machine.invoked {α σ : Type} (m : Machine α σ) : List α :=
  m.trace.map Prod.fst

/-- The implicitly defined default constructor: `std::deque` starts with no elements. -/
def DeletionQueue.new {α : Type} : DeletionQueue α :=
  { deletors := [] }

/-- The member function `push_function`: `deletors.push_back(fun)`. -/
def DeletionQueue.push_function {α : Type} (q : DeletionQueue α) (f : α) : DeletionQueue α :=
  { deletors := q.deletors ++ [f] }

/-- The body of `for (auto it = deletors.begin(); it != deletors.end(); it++) (*it)();`
executed on the elements still ahead of the iterator. -/
def flushLoop {α σ : Type} (call : α → σ → σ × Bool) :
    List α → σ × List (α × Bool) → σ × List (α × Bool)
  | [], s => s
  | f :: rest, (w, t) => flushLoop call rest ((call f w).1, t ++ [(f, (call f w).2)])

/-- A freshly constructed queue in a given world, nothing invoked yet. -/
def Machine.init {α σ : Type} (w : σ) : Machine α σ :=
  { queue := DeletionQueue.new, world := w, trace := [] }

/-- The member function `push_function` as a step of the machine. -/
def Machine.push_function {α σ : Type} (m : Machine α σ) (f : α) : Machine α σ :=
  { m with queue := m.queue.push_function f }

/-- The member function `flush`: the loop, then `deletors.clear()`. -/
def Machine.flush {α σ : Type} (call : α → σ → σ × Bool) (m : Machine α σ) : Machine α σ :=
  let r := flushLoop call m.queue.deletors (m.world, m.trace)
  { queue := { deletors := [] }, world := r.1, trace := r.2 }

/-- Registering a batch of callables one after the other. -/
def Machine.pushAll {α σ : Type} (m : Machine α σ) (fs : List α) : Machine α σ :=
  fs.foldl Machine.push_function m

/-- The two operations of the queue. -/
inductive Op (α : Type) where
  | push (f : α)
  | flush
deriving DecidableEq, Repr

/-- One operation applied to the machine. -/
def Machine.step {α σ : Type} (call : α → σ → σ × Bool) (m : Machine α σ) : Op α → Machine α σ
  | Op.push f => m.push_function f
  | Op.flush => m.flush call

/-- A sequence of operations applied left to right. -/
def Machine.run {α σ : Type} (call : α → σ → σ × Bool) (m : Machine α σ) (ops : List (Op α)) :
    Machine α σ :=
  ops.foldl (Machine.step call) m

/-- The callables registered by a sequence of operations, in registration order. -/
def registered {α : Type} : List (Op α) → List α
  | [] => []
  | Op.push f :: ops => f :: registered ops
  | Op.flush :: ops => registered ops

/-- Three distinguishable callables for concrete scenarios. -/
inductive Act where
  | A | B | C
deriving DecidableEq, Repr

/-- A world-free call in which every release succeeds. -/
def callOk : Act → Unit → Unit × Bool :=
  fun _ w => (w, true)

/-- What the call `(*it)()` can do: return, its release having succeeded or not, or leave by
an exception (an empty `std::function` throws `std::bad_function_call`). Either way it may
have changed the world. -/
inductive Outcome (σ : Type) where
  | returned (w : σ) (ok : Bool)
  | threw (w : σ)
deriving DecidableEq, Repr

/-- Whether the call left by an exception. -/
def Outcome.isThrow {σ : Type} : Outcome σ → Bool
  | Outcome.returned _ _ => false
  | Outcome.threw _ => true

/-- The world after the call and whether the release succeeded; a throw counts as a failure. -/
def Outcome.toPair {σ : Type} : Outcome σ → σ × Bool
  | Outcome.returned w ok => (w, ok)
  | Outcome.threw w => (w, false)

/-- A call that always returns, seen as a call that may throw. -/
def returning {α σ : Type} (call : α → σ → σ × Bool) : α → σ → Outcome σ :=
  fun f w => Outcome.returned (call f w).1 (call f w).2

/-- The loop of `flush` on the elements still ahead of the iterator, when `(*it)()` may throw.
The loop has no `try` block: after a throw no further element is visited. The `Bool` of the
result tells whether the loop reached `deletors.end()`. -/
def flushLoopExn {α σ : Type} (call : α → σ → Outcome σ) :
    List α → σ × List (α × Bool) → (σ × List (α × Bool)) × Bool
  | [], s => (s, true)
  | f :: rest, (w, t) =>
    match call f w with
    | Outcome.returned w1 ok => flushLoopExn call rest (w1, t ++ [(f, ok)])
    | Outcome.threw w1 => ((w1, t ++ [(f, false)]), false)

/-- The member function `flush` when `(*it)()` may throw: `deletors.clear()` comes after the
loop and is executed only if the loop ends normally; otherwise the exception leaves `flush`
with the deque as it was. The `Bool` tells whether `flush` returned normally. -/
def Machine.flushExn {α σ : Type} (call : α → σ → Outcome σ) (m : Machine α σ) :
    Machine α σ × Bool :=
  let r := flushLoopExn call m.queue.deletors (m.world, m.trace)
  if r.2 then ({ queue := { deletors := [] }, world := r.1.1, trace := r.1.2 }, true)
  else ({ queue := m.queue, world := r.1.1, trace := r.1.2 }, false)

/-- The type `glm::vec3`. -/
structure Vec3 where
  x : ℚ
  y : ℚ
  z : ℚ
deriving DecidableEq, Repr

/-- Component-wise `vec3 + vec3`. -/
def Vec3.add (a b : Vec3) : Vec3 :=
  { x := a.x + b.x, y := a.y + b.y, z := a.z + b.z }

/-- Component-wise `vec3 - vec3`. -/
def Vec3.sub (a b : Vec3) : Vec3 :=
  { x := a.x - b.x, y := a.y - b.y, z := a.z - b.z }

/-- The product `float * vec3`. -/
def Vec3.scale (s : ℚ) (v : Vec3) : Vec3 :=
  { x := s * v.x, y := s * v.y, z := s * v.z }

/-- The product `vec3 * float`. -/
def Vec3.scaleR (v : Vec3) (s : ℚ) : Vec3 :=
  { x := v.x * s, y := v.y * s, z := v.z * s }

/-- The function `glm::cross`. -/
def Vec3.cross (a b : Vec3) : Vec3 :=
  { x := a.y * b.z - b.y * a.z, y := a.z * b.x - b.z * a.x, z := a.x * b.y - b.x * a.y }

/-- The glm and libm functions the camera calls and the model leaves uninterpreted. -/
structure Glm (M : Type) where
  lookAt : Vec3 → Vec3 → Vec3 → M
  normalize : Vec3 → Vec3
  cos : ℚ → ℚ
  sin : ℚ → ℚ
  radians : ℚ → ℚ

/-- The data members of `class Camera`, in declaration order. -/
structure Camera (M : Type) where
  cameraPos : Vec3
  up : Vec3
  cameraFront : Vec3
  view : M
  speed : ℚ
  pitch : ℚ
  yaw : ℚ
  lastX : ℚ
  lastY : ℚ

/-- Whatever the members without a mem-initialiser hold when a constructor body starts. -/
structure Indeterminate (M : Type) where
  view : M
  pitch : ℚ
  yaw : ℚ
  lastX : ℚ
  lastY : ℚ

namespace Camera

variable {M : Type}

/-- The member function `calculateViewMatrix`. -/
def calculateViewMatrix (g : Glm M) (c : Camera M) : Camera M :=
  { c with view := g.lookAt c.cameraPos (c.cameraPos.add c.cameraFront) c.up }

/-- The default constructor `Camera()`. -/
def default (g : Glm M) (u : Indeterminate M) : Camera M :=
  calculateViewMatrix g
    { cameraPos := { x := 0, y := 0, z := 3 }
      up := { x := 0, y := 1, z := 0 }
      cameraFront := { x := 0, y := 0, z := 0 }
      view := u.view
      speed := 5 / 100
      pitch := u.pitch
      yaw := u.yaw
      lastX := 850
      lastY := 450 }

/-- The constructor `Camera(pos, up, front, speed)`. -/
def ofParts (g : Glm M) (u : Indeterminate M) (pos up front : Vec3) (speed : ℚ) : Camera M :=
  calculateViewMatrix g
    { cameraPos := pos
      up := up
      cameraFront := front
      view := u.view
      speed := speed
      pitch := u.pitch
      yaw := u.yaw
      lastX := u.lastX
      lastY := u.lastY }

/-- The member function `incrementPosition`. -/
def incrementPosition (g : Glm M) (c : Camera M) (displacement : Vec3) : Camera M :=
  calculateViewMatrix g { c with cameraPos := c.cameraPos.add displacement }

/-- The member function `getSpeed`. -/
def getSpeed (c : Camera M) : ℚ :=
  c.speed

/-- The member function `setSpeed`. -/
def setSpeed (c : Camera M) (sp : ℚ) : Camera M :=
  { c with speed := sp }

/-- The member function `onW`. -/
def onW (g : Glm M) (c : Camera M) : Camera M :=
  calculateViewMatrix g { c with cameraPos := c.cameraPos.add (Vec3.scale c.speed c.cameraFront) }

/-- The member function `onS`. -/
def onS (g : Glm M) (c : Camera M) : Camera M :=
  calculateViewMatrix g { c with cameraPos := c.cameraPos.sub (Vec3.scale c.speed c.cameraFront) }

/-- The member function `onA`. -/
def onA (g : Glm M) (c : Camera M) : Camera M :=
  calculateViewMatrix g
    { c with cameraPos :=
        c.cameraPos.sub (Vec3.scaleR (g.normalize (Vec3.cross c.cameraFront c.up)) c.speed) }

/-- The member function `onD`. -/
def onD (g : Glm M) (c : Camera M) : Camera M :=
  calculateViewMatrix g
    { c with cameraPos :=
        c.cameraPos.add (Vec3.scaleR (g.normalize (Vec3.cross c.cameraFront c.up)) c.speed) }

/-- The member function `onMouse`. -/
def onMouse (g : Glm M) (c : Camera M) (xpos ypos : Int) : Camera M :=
  let xoffset : ℚ := (xpos : ℚ) - c.lastX
  let yoffset : ℚ := c.lastY - (ypos : ℚ)
  let lastX : ℚ := (xpos : ℚ)
  let lastY : ℚ := (ypos : ℚ)
  let sensitivity : ℚ := 1 / 10
  let xoffset := xoffset * sensitivity
  let yoffset := yoffset * sensitivity
  let yaw := c.yaw + xoffset
  let pitch := c.pitch + yoffset
  let pitch := if pitch > 89 then 89 else pitch
  let pitch := if pitch < -89 then -89 else pitch
  let direction : Vec3 :=
    { x := g.cos (g.radians yaw) * g.cos (g.radians pitch)
      y := g.sin (g.radians pitch)
      z := g.sin (g.radians yaw) * g.cos (g.radians pitch) }
  calculateViewMatrix g
    { c with lastX := lastX, lastY := lastY, yaw := yaw, pitch := pitch,
             cameraFront := g.normalize direction }

/-- The member function `getViewMatrix`. -/
def getViewMatrix (c : Camera M) : M :=
  c.view

/-- The states a camera can be in: a constructor followed by mutating member calls. -/
inductive Reachable (g : Glm M) : Camera M → Prop where
  | default (u : Indeterminate M) : Reachable g (Camera.default g u)
  | ofParts (u : Indeterminate M) (pos up front : Vec3) (speed : ℚ) :
      Reachable g (Camera.ofParts g u pos up front speed)
  | incrementPosition {c : Camera M} (d : Vec3) :
      Reachable g c → Reachable g (c.incrementPosition g d)
  | setSpeed {c : Camera M} (sp : ℚ) : Reachable g c → Reachable g (c.setSpeed sp)
  | onW {c : Camera M} : Reachable g c → Reachable g (c.onW g)
  | onS {c : Camera M} : Reachable g c → Reachable g (c.onS g)
  | onA {c : Camera M} : Reachable g c → Reachable g (c.onA g)
  | onD {c : Camera M} : Reachable g c → Reachable g (c.onD g)
  | onMouse {c : Camera M} (xpos ypos : Int) :
      Reachable g c → Reachable g (c.onMouse g xpos ypos)

end Camera

/-- The three arguments of a `lookAt` call, kept as they are: a stand-in matrix type. -/
abbrev LookArgs : Type := Vec3 × Vec3 × Vec3

/-- A concrete instance of the uninterpreted functions, for evaluating scenarios. -/
def glmPlain : Glm LookArgs :=
  { lookAt := fun eye center up => (eye, center, up)
    normalize := fun v => v
    cos := fun _ => 1
    sin := fun _ => 0
    radians := fun d => d }

/-- A concrete choice of the uninitialised members. -/
def junk : Indeterminate LookArgs :=
  { view := (⟨7, 7, 7⟩, ⟨7, 7, 7⟩, ⟨7, 7, 7⟩), pitch := 0, yaw := -90, lastX := 0, lastY := 0 }

/-! ## DeletionQueue: auxiliary facts -/

section DeletionQueueLemmas

variable {α σ : Type}

theorem flushLoop_append (call : α → σ → σ × Bool) (fs gs : List α) (s : σ × List (α × Bool)) :
    flushLoop call (fs ++ gs) s = flushLoop call gs (flushLoop call fs s) := by
  induction fs generalizing s with
  | nil => rfl
  | cons f rest ih =>
    obtain ⟨w, t⟩ := s
    simp only [List.cons_append, flushLoop]
    exact ih _

theorem flushLoop_invoked (call : α → σ → σ × Bool) (fs : List α) (s : σ × List (α × Bool)) :
    (flushLoop call fs s).2.map Prod.fst = s.2.map Prod.fst ++ fs := by
  induction fs generalizing s with
  | nil => simp [flushLoop]
  | cons f rest ih =>
    obtain ⟨w, t⟩ := s
    simp only [flushLoop]
    rw [ih]
    simp

theorem flush_invoked (call : α → σ → σ × Bool) (m : Machine α σ) :
    (m.flush call).invoked = m.invoked ++ m.queue.deletors := by
  simp [Machine.flush, Machine.invoked, flushLoop_invoked]

theorem flush_queue (call : α → σ → σ × Bool) (m : Machine α σ) :
    (m.flush call).queue.deletors = [] := rfl

theorem pushAll_queue (m : Machine α σ) (fs : List α) :
    (m.pushAll fs).queue.deletors = m.queue.deletors ++ fs := by
  induction fs generalizing m with
  | nil => simp [Machine.pushAll]
  | cons f rest ih =>
    have h := ih (m.push_function f)
    simp only [Machine.pushAll, List.foldl_cons] at h ⊢
    rw [h]
    simp [Machine.push_function, DeletionQueue.push_function]

theorem pushAll_trace (m : Machine α σ) (fs : List α) : (m.pushAll fs).trace = m.trace := by
  induction fs generalizing m with
  | nil => rfl
  | cons f rest ih =>
    have h := ih (m.push_function f)
    simp only [Machine.pushAll, List.foldl_cons] at h ⊢
    rw [h]
    rfl

theorem pushAll_world (m : Machine α σ) (fs : List α) : (m.pushAll fs).world = m.world := by
  induction fs generalizing m with
  | nil => rfl
  | cons f rest ih =>
    have h := ih (m.push_function f)
    simp only [Machine.pushAll, List.foldl_cons] at h ⊢
    rw [h]
    rfl

theorem pushAll_invoked (m : Machine α σ) (fs : List α) : (m.pushAll fs).invoked = m.invoked := by
  simp [Machine.invoked, pushAll_trace]

/-- Invoked and pending callables together are everything registered, in order. -/
theorem run_invoked_pending (call : α → σ → σ × Bool) (ops : List (Op α)) (m : Machine α σ) :
    (m.run call ops).invoked ++ (m.run call ops).queue.deletors
      = m.invoked ++ m.queue.deletors ++ registered ops := by
  induction ops generalizing m with
  | nil => simp [Machine.run, registered]
  | cons op rest ih =>
    have h := ih (m.step call op)
    simp only [Machine.run, List.foldl_cons] at h ⊢
    rw [h]
    cases op with
    | push f =>
      simp [Machine.step, Machine.push_function, DeletionQueue.push_function, registered,
        Machine.invoked]
    | flush =>
      simp [Machine.step, registered, flush_invoked, flush_queue]

theorem run_append (call : α → σ → σ × Bool) (m : Machine α σ) (ops ops2 : List (Op α)) :
    m.run call (ops ++ ops2) = (m.run call ops).run call ops2 := by
  simp [Machine.run, List.foldl_append]

theorem run_then_flush_invoked (call : α → σ → σ × Bool) (w : σ) (ops : List (Op α)) :
    ((Machine.init w).run call (ops ++ [Op.flush])).invoked = registered ops := by
  rw [run_append]
  have h := run_invoked_pending call ops (Machine.init w)
  simp only [Machine.run, List.foldl_cons, List.foldl_nil, Machine.step] at h ⊢
  rw [flush_invoked, h]
  simp [Machine.init, Machine.invoked, DeletionQueue.new]

theorem flushLoopExn_of_no_throw (call : α → σ → Outcome σ) (fs : List α)
    (s : σ × List (α × Bool)) (h : ∀ f ∈ fs, ∀ w, (call f w).isThrow = false) :
    flushLoopExn call fs s = (flushLoop (fun f w => (call f w).toPair) fs s, true) := by
  induction fs generalizing s with
  | nil => rfl
  | cons f rest ih =>
    obtain ⟨w, t⟩ := s
    have hf := h f (List.mem_cons_self _ _) w
    have hrest : ∀ g ∈ rest, ∀ w, (call g w).isThrow = false :=
      fun g hg => h g (List.mem_cons_of_mem _ hg)
    simp only [flushLoopExn, flushLoop]
    cases hc : call f w with
    | returned w1 ok =>
      simp only [Outcome.toPair]
      exact ih _ hrest
    | threw w1 =>
      rw [hc] at hf
      simp [Outcome.isThrow] at hf

/-- On calls that return, the description with exceptions is the one without. -/
theorem flushExn_returning (call : α → σ → σ × Bool) (m : Machine α σ) :
    m.flushExn (returning call) = (m.flush call, true) := by
  have h := flushLoopExn_of_no_throw (returning call) m.queue.deletors (m.world, m.trace)
    (fun _ _ _ => rfl)
  simp only [Machine.flushExn, h]
  rfl

end DeletionQueueLemmas

/-! ## DeletionQueue: the claims -/

section DeletionQueueClaims

variable {α σ : Type}

/-- C1, as stated, fails: `A`, `B`, `C` registered in that order on an empty queue and then
flushed are invoked in the order `A`, `B`, `C`, which is not `C`, `B`, `A`. -/
theorem C1_flush_is_not_reverse_order :
    (((Machine.init ()).pushAll [Act.A, Act.B, Act.C]).flush callOk).invoked
        = [Act.A, Act.B, Act.C]
      ∧ (((Machine.init ()).pushAll [Act.A, Act.B, Act.C]).flush callOk).invoked
        ≠ [Act.C, Act.B, Act.A] := by
  decide

/-- C1, amended: for every sequence of callables registered with `push_function` on an empty
queue, `flush` invokes them in exactly the order of registration (first registered first,
last registered last); registering `A`, `B`, `C` and flushing gives the order `A`, `B`, `C`. -/
theorem C1_flush_invokes_in_registration_order (call : α → σ → σ × Bool) (w : σ)
    (fs : List α) :
    (((Machine.init w).pushAll fs).flush call).invoked = fs
      ∧ (∀ i : Nat, (((Machine.init w).pushAll fs).flush call).invoked[i]? = fs[i]?)
      ∧ (((Machine.init ()).pushAll [Act.A, Act.B, Act.C]).flush callOk).invoked
        = [Act.A, Act.B, Act.C] := by
  have h : (((Machine.init w).pushAll fs).flush call).invoked = fs := by
    rw [flush_invoked, pushAll_invoked, pushAll_queue]
    simp [Machine.init, Machine.invoked, DeletionQueue.new]
  refine ⟨h, ?_, by decide⟩
  intro i
  rw [h]

/-- C2: after any sequence of `push_function` and `flush` operations on an initially empty
queue that ends with a `flush`, the invocation log is a rearrangement of the registered
callables: each is logged as many times as it was registered (exactly once when the
registered callables are pairwise distinct), nothing unregistered is logged, and nothing is
left in the queue. -/
theorem C2_each_registered_invoked_exactly_once [DecidableEq α] (call : α → σ → σ × Bool)
    (w : σ) (ops : List (Op α)) :
    ((Machine.init w).run call (ops ++ [Op.flush])).invoked.Perm (registered ops)
      ∧ (∀ a : α, ((Machine.init w).run call (ops ++ [Op.flush])).invoked.count a
            = (registered ops).count a)
      ∧ ((registered ops).Nodup → ∀ a ∈ registered ops,
            ((Machine.init w).run call (ops ++ [Op.flush])).invoked.count a = 1)
      ∧ (∀ a : α, a ∈ ((Machine.init w).run call (ops ++ [Op.flush])).invoked →
            a ∈ registered ops)
      ∧ ((Machine.init w).run call (ops ++ [Op.flush])).queue.deletors = [] := by
  have h := run_then_flush_invoked call w ops
  refine ⟨?_, ?_, ?_, ?_, ?_⟩
  · rw [h]
  · intro a
    rw [h]
  · intro hnd a ha
    rw [h]
    exact List.count_eq_one_of_mem hnd ha
  · intro a ha
    rw [h] at ha
    exact ha
  · rw [run_append]
    rfl

/-- C2 at a concrete input: push `A`, flush, push `B`, push `C`, flush. -/
theorem C2_each_registered_invoked_exactly_once_witness :
    ((Machine.init ()).run callOk
        ([Op.push Act.A, Op.flush, Op.push Act.B, Op.push Act.C] ++ [Op.flush])).invoked
        = [Act.A, Act.B, Act.C]
      ∧ ((Machine.init ()).run callOk
        ([Op.push Act.A, Op.flush, Op.push Act.B, Op.push Act.C] ++ [Op.flush])).invoked.count
          Act.B = 1 :=
  ⟨by decide,
   (C2_each_registered_invoked_exactly_once callOk ()
      [Op.push Act.A, Op.flush, Op.push Act.B, Op.push Act.C]).2.2.1 (by decide) Act.B
      (by decide)⟩

/-- C3: after `flush` the queue holds no callables, and a second `flush` right after it
invokes nothing: the log, the world and the queue are those left by the first one. -/
theorem C3_flush_empties_and_is_idempotent (call : α → σ → σ × Bool) (m : Machine α σ) :
    (m.flush call).queue.deletors = []
      ∧ (m.flush call).queue.deletors.length = 0
      ∧ ((m.flush call).flush call).trace = (m.flush call).trace
      ∧ (m.flush call).flush call = m.flush call := by
  refine ⟨rfl, rfl, rfl, rfl⟩

/-- C4: `push_function` invokes nothing (log and world are unchanged) and the resulting queue
is the previous sequence with the new callable appended at the end: the length grows by one
and every position that existed before holds what it held. -/
theorem C4_push_function_appends_only (m : Machine α σ) (f : α) :
    (m.push_function f).trace = m.trace
      ∧ (m.push_function f).world = m.world
      ∧ (m.push_function f).queue.deletors = m.queue.deletors ++ [f]
      ∧ (m.push_function f).queue.deletors.length = m.queue.deletors.length + 1
      ∧ (∀ i : Nat, i < m.queue.deletors.length →
            (m.push_function f).queue.deletors[i]? = m.queue.deletors[i]?)
      ∧ (m.push_function f).queue.deletors[m.queue.deletors.length]? = some f := by
  refine ⟨rfl, rfl, rfl, ?_, ?_, ?_⟩
  · simp [Machine.push_function, DeletionQueue.push_function]
  · intro i hi
    simp [Machine.push_function, DeletionQueue.push_function, List.getElem?_append_left hi]
  · simp [Machine.push_function, DeletionQueue.push_function]

/-- C4 at a concrete input: pushing `C` onto a queue holding `A`, `B`. -/
theorem C4_push_function_appends_only_witness :
    (({ queue := { deletors := [Act.A, Act.B] }, world := (), trace := [] } :
        Machine Act Unit).push_function Act.C).queue.deletors[1]? = some Act.B :=
  ((C4_push_function_appends_only
      ({ queue := { deletors := [Act.A, Act.B] }, world := (), trace := [] } : Machine Act Unit)
      Act.C).2.2.2.2.1 1 (by decide)).trans (by decide)

/-- C5: a newly constructed queue holds no callables, and `flush` on an empty queue is a
no-op: it returns, logs no invocation, leaves the world as it was and the queue empty. -/
theorem C5_new_is_empty_and_flush_of_empty_is_noop (call : α → σ → σ × Bool) (w : σ)
    (t : List (α × Bool)) :
    (DeletionQueue.new : DeletionQueue α).deletors = []
      ∧ (Machine.init w : Machine α σ).queue.deletors = []
      ∧ ((Machine.init w).flush call : Machine α σ) = Machine.init w
      ∧ Machine.flush call { queue := DeletionQueue.new, world := w, trace := t }
          = { queue := DeletionQueue.new, world := w, trace := t } := by
  refine ⟨rfl, rfl, rfl, rfl⟩

/-- C6: from an empty queue, register `xs`, flush, register `ys`, flush. The first flush
invokes exactly `xs`; nothing is invoked while `ys` is registered; the second flush adds
exactly `ys` to the log, so a callable of `xs` that is not also in `ys` is not invoked by the
second flush;
the queue is empty after each flush. With `xs = [A]`, `ys = [B]` the first flush logs `[A]`
and the second adds `[B]`. -/
theorem C6_batches_are_flushed_separately (call : α → σ → σ × Bool) (w : σ) (xs ys : List α) :
    (((Machine.init w).pushAll xs).flush call).invoked = xs
      ∧ ((((Machine.init w).pushAll xs).flush call).pushAll ys).invoked = xs
      ∧ (((((Machine.init w).pushAll xs).flush call).pushAll ys).flush call).invoked = xs ++ ys
      ∧ (((((Machine.init w).pushAll xs).flush call).pushAll ys).flush call).invoked.drop
          (((Machine.init w).pushAll xs).flush call).invoked.length = ys
      ∧ (∀ a ∈ xs, a ∉ ys →
          a ∉ (((((Machine.init w).pushAll xs).flush call).pushAll ys).flush call).invoked.drop
            (((Machine.init w).pushAll xs).flush call).invoked.length)
      ∧ (((Machine.init w).pushAll xs).flush call).queue.deletors = []
      ∧ (((((Machine.init w).pushAll xs).flush call).pushAll ys).flush call).queue.deletors = []
      ∧ (((Machine.init ()).pushAll [Act.A]).flush callOk).invoked = [Act.A]
      ∧ (((((Machine.init ()).pushAll [Act.A]).flush callOk).pushAll [Act.B]).flush
          callOk).invoked.drop 1 = [Act.B] := by
  have h1 : (((Machine.init w).pushAll xs).flush call).invoked = xs := by
    rw [flush_invoked, pushAll_invoked, pushAll_queue]
    simp [Machine.init, Machine.invoked, DeletionQueue.new]
  have h2 : (((((Machine.init w).pushAll xs).flush call).pushAll ys).flush call).invoked
      = xs ++ ys := by
    rw [flush_invoked, pushAll_invoked, pushAll_queue, h1, flush_queue]
    simp
  have h3 : (((((Machine.init w).pushAll xs).flush call).pushAll ys).flush call).invoked.drop
      (((Machine.init w).pushAll xs).flush call).invoked.length = ys := by
    rw [h2, h1]
    simp
  refine ⟨h1, ?_, h2, h3, ?_, rfl, rfl, by decide, by decide⟩
  · rw [pushAll_invoked, h1]
  · intro a _ hys
    rw [h3]
    exact hys

/-- C6 at a concrete input: `A` registered and flushed, then `B` registered and flushed; `A`
is not among the calls of the second flush. -/
theorem C6_batches_are_flushed_separately_witness :
    (((((Machine.init ()).pushAll [Act.A]).flush callOk).pushAll [Act.B]).flush callOk).invoked
        = [Act.A, Act.B]
      ∧ Act.A ∉ (((((Machine.init ()).pushAll [Act.A]).flush callOk).pushAll [Act.B]).flush
          callOk).invoked.drop (((Machine.init ()).pushAll [Act.A]).flush callOk).invoked.length :=
  ⟨by decide,
   (C6_batches_are_flushed_separately callOk () [Act.A] [Act.B]).2.2.2.2.1 Act.A (by decide)
      (by decide)⟩

end DeletionQueueClaims

/-! ## Camera: the claims -/

section CameraClaims

variable {M : Type}

theorem Vec3.sub_add_cancel (p v : Vec3) : (p.add v).sub v = p := by
  cases p
  cases v
  simp [Vec3.add, Vec3.sub]

theorem Vec3.add_sub_cancel (p v : Vec3) : (p.sub v).add v = p := by
  cases p
  cases v
  simp [Vec3.add, Vec3.sub]

/-- C8: in every state a camera can reach (either constructor, then any number of calls of
`incrementPosition`, `setSpeed`, `onW`, `onS`, `onA`, `onD`, `onMouse`) the matrix returned by
`getViewMatrix` is `lookAt(cameraPos, cameraPos + cameraFront, up)` of the current members. -/
theorem C8_view_matrix_is_never_stale (g : Glm M) (c : Camera M) (h : Camera.Reachable g c) :
    c.getViewMatrix = g.lookAt c.cameraPos (c.cameraPos.add c.cameraFront) c.up := by
  induction h with
  | default u => rfl
  | ofParts u pos up front speed => rfl
  | incrementPosition d _ _ => rfl
  | setSpeed sp _ ih => exact ih
  | onW _ _ => rfl
  | onS _ _ => rfl
  | onA _ _ => rfl
  | onD _ _ => rfl
  | onMouse xpos ypos _ _ => rfl

/-- C8 at a concrete input: default construction, `onW`, `setSpeed(2)`, `onD`. -/
theorem C8_view_matrix_is_never_stale_witness :
    Camera.Reachable glmPlain
        ((((Camera.default glmPlain junk).onW glmPlain).setSpeed 2).onD glmPlain)
      ∧ ((((Camera.default glmPlain junk).onW glmPlain).setSpeed 2).onD glmPlain).getViewMatrix
        = glmPlain.lookAt
            ((((Camera.default glmPlain junk).onW glmPlain).setSpeed 2).onD glmPlain).cameraPos
            (((((Camera.default glmPlain junk).onW glmPlain).setSpeed 2).onD glmPlain).cameraPos.add
              ((((Camera.default glmPlain junk).onW glmPlain).setSpeed 2).onD glmPlain).cameraFront)
            ((((Camera.default glmPlain junk).onW glmPlain).setSpeed 2).onD glmPlain).up :=
  ⟨Camera.Reachable.onD (Camera.Reachable.setSpeed 2
      (Camera.Reachable.onW (Camera.Reachable.default junk))),
   C8_view_matrix_is_never_stale glmPlain _
    (Camera.Reachable.onD (Camera.Reachable.setSpeed 2
      (Camera.Reachable.onW (Camera.Reachable.default junk))))⟩

/-- C9: after `onMouse(xpos, ypos)` the pitch lies in `[-89, 89]`; with
`v = pitch + 0.1 * (lastY - ypos)` computed from the members before the call, the new pitch is
`v` when `v` is in the interval, `89` when `v > 89` and `-89` when `v < -89`; `lastX` and
`lastY` are `xpos` and `ypos`. -/
theorem C9_onMouse_clamps_pitch (g : Glm M) (c : Camera M) (xpos ypos : Int) :
    -89 ≤ (c.onMouse g xpos ypos).pitch
      ∧ (c.onMouse g xpos ypos).pitch ≤ 89
      ∧ (c.onMouse g xpos ypos).pitch
          = max (-89) (min 89 (c.pitch + (1 / 10) * (c.lastY - (ypos : ℚ))))
      ∧ (-89 ≤ c.pitch + (1 / 10) * (c.lastY - (ypos : ℚ))
            ∧ c.pitch + (1 / 10) * (c.lastY - (ypos : ℚ)) ≤ 89 →
          (c.onMouse g xpos ypos).pitch = c.pitch + (1 / 10) * (c.lastY - (ypos : ℚ)))
      ∧ (89 < c.pitch + (1 / 10) * (c.lastY - (ypos : ℚ)) → (c.onMouse g xpos ypos).pitch = 89)
      ∧ (c.pitch + (1 / 10) * (c.lastY - (ypos : ℚ)) < -89 →
          (c.onMouse g xpos ypos).pitch = -89)
      ∧ (c.onMouse g xpos ypos).lastX = (xpos : ℚ)
      ∧ (c.onMouse g xpos ypos).lastY = (ypos : ℚ) := by
  have hv : (c.lastY - (ypos : ℚ)) * (1 / 10) = (1 / 10) * (c.lastY - (ypos : ℚ)) := by ring
  have hp : (c.onMouse g xpos ypos).pitch
      = if (if c.pitch + (1 / 10) * (c.lastY - (ypos : ℚ)) > 89 then (89 : ℚ)
              else c.pitch + (1 / 10) * (c.lastY - (ypos : ℚ))) < -89 then -89
        else (if c.pitch + (1 / 10) * (c.lastY - (ypos : ℚ)) > 89 then (89 : ℚ)
              else c.pitch + (1 / 10) * (c.lastY - (ypos : ℚ))) := by
    simp only [Camera.onMouse, Camera.calculateViewMatrix, hv]
  generalize c.pitch + (1 / 10) * (c.lastY - (ypos : ℚ)) = v at hp
  have key : (if (if v > 89 then (89 : ℚ) else v) < -89 then (-89 : ℚ)
      else (if v > 89 then (89 : ℚ) else v)) = max (-89) (min 89 v) := by
    by_cases h1 : v > 89
    · rw [if_pos h1, if_neg (by norm_num), min_eq_left (le_of_lt h1),
        max_eq_right (by norm_num)]
    · rw [if_neg h1, min_eq_right (not_lt.mp h1)]
      by_cases h2 : v < -89
      · rw [if_pos h2, max_eq_left (le_of_lt h2)]
      · rw [if_neg h2, max_eq_right (not_lt.mp h2)]
  rw [hp, key]
  refine ⟨le_max_left _ _, max_le (by norm_num) (min_le_left _ _), rfl, ?_, ?_, ?_, rfl, rfl⟩
  · rintro ⟨h1, h2⟩
    rw [min_eq_right h2, max_eq_right h1]
  · intro h
    rw [min_eq_left (le_of_lt h), max_eq_right (by norm_num)]
  · intro h
    rw [min_eq_right (by linarith), max_eq_left (le_of_lt h)]

/-- C9 at concrete inputs: the default camera with pitch 0 and the mouse at `(900, 400)`,
`(900, -1000)` and `(900, 2000)`: pitch 5, 89 and -89. -/
theorem C9_onMouse_clamps_pitch_witness :
    ((Camera.default glmPlain junk).onMouse glmPlain 900 400).pitch = 5
      ∧ ((Camera.default glmPlain junk).onMouse glmPlain 900 (-1000)).pitch = 89
      ∧ ((Camera.default glmPlain junk).onMouse glmPlain 900 2000).pitch = -89 :=
  ⟨((C9_onMouse_clamps_pitch glmPlain (Camera.default glmPlain junk) 900 400).2.2.2.1
      (by norm_num [Camera.default, Camera.calculateViewMatrix, junk])).trans
      (by norm_num [Camera.default, Camera.calculateViewMatrix, junk]),
   (C9_onMouse_clamps_pitch glmPlain (Camera.default glmPlain junk) 900 (-1000)).2.2.2.2.1
      (by norm_num [Camera.default, Camera.calculateViewMatrix, junk]),
   (C9_onMouse_clamps_pitch glmPlain (Camera.default glmPlain junk) 900 2000).2.2.2.2.2.1
      (by norm_num [Camera.default, Camera.calculateViewMatrix, junk])⟩

/-- C10: `onW` adds `speed * cameraFront` to `cameraPos` and `onS` subtracts the same vector, so
`onW` then `onS`, and `onS` then `onW`, give back the original `cameraPos`; neither changes
`up`, `cameraFront`, `speed`, `pitch`, `yaw`, `lastX` or `lastY`. -/
theorem C10_onW_onS_cancel (g : Glm M) (c : Camera M) :
    ((c.onW g).onS g).cameraPos = c.cameraPos
      ∧ ((c.onS g).onW g).cameraPos = c.cameraPos
      ∧ (c.onW g).cameraPos = c.cameraPos.add (Vec3.scale c.speed c.cameraFront)
      ∧ (c.onS g).cameraPos = c.cameraPos.sub (Vec3.scale c.speed c.cameraFront)
      ∧ ((c.onW g).up = c.up ∧ (c.onW g).cameraFront = c.cameraFront
          ∧ (c.onW g).speed = c.speed ∧ (c.onW g).pitch = c.pitch ∧ (c.onW g).yaw = c.yaw
          ∧ (c.onW g).lastX = c.lastX ∧ (c.onW g).lastY = c.lastY)
      ∧ ((c.onS g).up = c.up ∧ (c.onS g).cameraFront = c.cameraFront
          ∧ (c.onS g).speed = c.speed ∧ (c.onS g).pitch = c.pitch ∧ (c.onS g).yaw = c.yaw
          ∧ (c.onS g).lastX = c.lastX ∧ (c.onS g).lastY = c.lastY) := by
  refine ⟨?_, ?_, rfl, rfl, ⟨rfl, rfl, rfl, rfl, rfl, rfl, rfl⟩,
    ⟨rfl, rfl, rfl, rfl, rfl, rfl, rfl⟩⟩
  · exact Vec3.sub_add_cancel c.cameraPos (Vec3.scale c.speed c.cameraFront)
  · exact Vec3.add_sub_cancel c.cameraPos (Vec3.scale c.speed c.cameraFront)

end CameraClaims

end VkEngine
